import Mathlib

/-!
Verification development for the core of `ajustador/optimize.py`:
parameter scaling (`AjuParam`), parameter sets (`ParamSet`), the persisted
simulation-results loader (`SimulationResults`), the `Simulation` lifecycle,
and the `Fit` driver's memoized fitness pipeline.

Numbers are modelled as rationals (the Python code computes with IEEE
doubles; every claim here is about exact algebraic structure, so ℚ is the
faithful exact counterpart).  Python exceptions are modelled with `Except`.
-/

/-- Python exceptions that the modelled code can raise. -/
inductive PyError where
  | nameError
  | attributeError
  | valueError
deriving DecidableEq, Repr

/-- Association-list lookup by key (the shallow model of a Python dict
lookup `d[k]`, returning the value at the first matching key). -/
def alookup {α β : Type} [DecidableEq α] : List (α × β) → α → Option β
  | [], _ => none
  | e :: rest, a => if e.1 = a then some e.2 else alookup rest a

/-- A Python value stored in a `Param`: either a number or a string
(e.g. a morphology file name). -/
inductive PValue where
  | num (q : ℚ)
  | str (s : String)
deriving DecidableEq, Repr

/-- The reference value used by `AjuParam.__init__` to pick a scaling
factor: `value` if nonzero, else `max` if present and nonzero, else `min`
if present, else 0.  (optimize.py lines 263-266.) -/
def refValue (value : ℚ) (mn mx : Option ℚ) : ℚ :=
  if value ≠ 0 then value
  else
    match mx with
    | some m => if m ≠ 0 then m else (match mn with | some n => n | none => 0)
    | none => match mn with | some n => n | none => 0

/-- The scaling factor computed by `AjuParam.__init__` (optimize.py lines
267-271).  The source sets `rr = log10(abs(val))` (or `-1` for `val == 0`)
and uses `1` when `abs(rr) <= 1`, else `10**floor(rr)`.  Over the exact
numbers: `abs(log10 |val|) ≤ 1` iff `1/10 ≤ |val| ≤ 10`, and
`floor(log10 |val|)` is `Int.log 10 |val|`. -/
def scalingFor (value : ℚ) (mn mx : Option ℚ) : ℚ :=
  let val := refValue value mn mx
  if val = 0 then 1
  else if 1/10 ≤ |val| ∧ |val| ≤ 10 then 1
  else (10 : ℚ) ^ Int.log 10 |val|

/-- An optimizable parameter (`AjuParam`): name, starting value, optional
bounds.  Its scaling factor is derived from these fields exactly as the
constructor computes it. -/
structure AjuParam where
  name : String
  value : ℚ
  min : Option ℚ := none
  max : Option ℚ := none
deriving DecidableEq, Repr

/-- `self._scaling` of an `AjuParam`. -/
def AjuParam.scaling (p : AjuParam) : ℚ := scalingFor p.value p.min p.max

/-- `AjuParam.scale`: divide by the scaling factor (optimize.py 277-278). -/
def AjuParam.scale (p : AjuParam) (val : ℚ) : ℚ := val / p.scaling

/-- `AjuParam.unscale`: multiply by the scaling factor (optimize.py 280-281). -/
def AjuParam.unscale (p : AjuParam) (val : ℚ) : ℚ := val * p.scaling

/-- The `scaled` property of an `AjuParam`. -/
def AjuParam.scaledValue (p : AjuParam) : ℚ := p.scale p.value

/-- `AjuParam.valid`: both bounds hold when present (optimize.py 283-285). -/
def AjuParam.valid (p : AjuParam) (val : ℚ) : Bool :=
  (match p.min with | none => true | some m => decide (m ≤ val)) &&
  (match p.max with | none => true | some m => decide (val ≤ m))

/-- A member of a `ParamSet`: either a fixed `Param` (name and stored
value, excluded from optimization) or an optimizable `AjuParam`. -/
inductive Param where
  | fixedP (name : String) (value : PValue)
  | aju (p : AjuParam)
deriving DecidableEq, Repr

/-- The `name` attribute of a param. -/
def Param.name : Param → String
  | .fixedP n _ => n
  | .aju p => p.name

/-- The stored `value` attribute of a param. -/
def Param.value : Param → PValue
  | .fixedP _ v => v
  | .aju p => .num p.value

/-- The `fixed` class attribute: `True` for `Param`, `False` for `AjuParam`. -/
def Param.fixed : Param → Bool
  | .fixedP _ _ => true
  | .aju _ => false

/-- A `ParamSet`: the ordered tuple of params it was constructed from. -/
structure ParamSet where
  params : List Param
deriving DecidableEq, Repr

/-- `self.fixedparams`: order-preserving filter of the fixed params. -/
def ParamSet.fixedparams (ps : ParamSet) : List Param :=
  ps.params.filter (fun p => p.fixed)

/-- `self.ajuparams`: order-preserving filter of the optimizable params. -/
def ParamSet.ajuparams (ps : ParamSet) : List AjuParam :=
  ps.params.filterMap (fun p => match p with | .aju a => some a | .fixedP _ _ => none)

/-- The `scaled` property of a `ParamSet`: each optimizable param's value,
scaled.  (The source calls `self.scale` on a generator of the values, which
zips them back with `ajuparams`; the composite is this map.) -/
def ParamSet.scaled (ps : ParamSet) : List ℚ :=
  ps.ajuparams.map (fun p => p.scale p.value)

/-- `ParamSet.scale` on a concrete list: asserts the length matches the
number of optimizable params (`none` models the `AssertionError`). -/
def ParamSet.scaleList (ps : ParamSet) (values : List ℚ) : Option (List ℚ) :=
  if values.length = ps.ajuparams.length then
    some ((ps.ajuparams.zip values).map (fun pv => pv.1.scale pv.2))
  else none

/-- `ParamSet.unscale` (optimize.py 305-307). -/
def ParamSet.unscaleList (ps : ParamSet) (scaled_values : List ℚ) : Option (List ℚ) :=
  if scaled_values.length = ps.ajuparams.length then
    some ((ps.ajuparams.zip scaled_values).map (fun pv => pv.1.unscale pv.2))
  else none

/-- One insertion into a Python (ordered) dict: an existing key keeps its
position and gets the new value, a fresh key is appended. -/
def odInsert : List (String × PValue) → String × PValue → List (String × PValue)
  | [], kv => [kv]
  | e :: rest, kv => if e.1 = kv.1 then (e.1, kv.2) :: rest else e :: odInsert rest kv

/-- Build an ordered dict from a sequence of key-value pairs. -/
def odOfList (l : List (String × PValue)) : List (String × PValue) :=
  l.foldl odInsert []

/-- `ParamSet.unscaled_dict` (optimize.py 309-315): assert the length, then
an `OrderedDict` over the unscaled optimizable entries chained with the
fixed params' stored values. -/
def ParamSet.unscaled_dict (ps : ParamSet) (scaled_values : List ℚ) :
    Option (List (String × PValue)) :=
  if scaled_values.length = ps.ajuparams.length then
    some (odOfList
      ((ps.ajuparams.zip scaled_values).map
          (fun pv => (pv.1.name, PValue.num (pv.1.unscale pv.2)))
        ++ ps.fixedparams.map (fun p => (p.name, p.value))))
  else none

/-- `ParamSet.update` (optimize.py 317-324): every param whose name occurs
in the keyword arguments is rebuilt with the new value (an optimizable
param keeps its bounds, a fixed param stays fixed); params whose name is
not mentioned pass through unchanged.  Keyword arguments whose name
matches no param are never consulted.  (Update values are numeric here;
the claims under study only exercise numeric updates.) -/
def ParamSet.update (ps : ParamSet) (kwargs : List (String × ℚ)) : ParamSet :=
  ⟨ps.params.map (fun p =>
    match alookup kwargs p.name with
    | some v =>
      match p with
      | .aju a => .aju ⟨a.name, v, a.min, a.max⟩
      | .fixedP n _ => .fixedP n (.num v)
    | none => p)⟩

/-- `ParamSet.scaled_bounds` (optimize.py 326-332): per-optimizable-param
scaled lower and upper bounds, `none` for an absent bound.  (The
`utilities.once` decorator only caches this pure value.) -/
def ParamSet.scaled_bounds (ps : ParamSet) : List (Option ℚ) × List (Option ℚ) :=
  (ps.ajuparams.map (fun p => p.min.map (fun m => p.scale m)),
   ps.ajuparams.map (fun p => p.max.map (fun m => p.scale m)))

/-- The scaling factor is never zero: each branch yields `1` or a power of ten. -/
theorem scalingFor_ne_zero (value : ℚ) (mn mx : Option ℚ) :
    scalingFor value mn mx ≠ 0 := by
  unfold scalingFor
  dsimp only
  split
  · exact one_ne_zero
  · split
    · exact one_ne_zero
    · exact zpow_ne_zero _ (by norm_num)

/-- C3: for every `AjuParam`, `scale` and `unscale` are mutually inverse
linear maps: `unscale (scale v) = v` (in particular for every `v ≠ 0`) and
`scale (unscale x) = x` for every `x`; both are total, raising no error. -/
theorem aju_scale_unscale_inverse (p : AjuParam) (v x : ℚ) :
    p.unscale (p.scale v) = v ∧ p.scale (p.unscale x) = x := by
  have hs : p.scaling ≠ 0 := scalingFor_ne_zero p.value p.min p.max
  constructor
  · show v / p.scaling * p.scaling = v
    exact div_mul_cancel₀ v hs
  · show x * p.scaling / p.scaling = x
    exact mul_div_cancel_right₀ x hs

/-- One result directory as seen by `SimulationResults`: its name, whether
the `.complete` marker file is present, and the modification time of its
`params.pickle`. -/
structure ResultDir where
  dirname : String
  hasComplete : Bool
  mtime : ℚ
deriving DecidableEq, Repr

/-- Insert a directory into a list sorted by ascending `mtime` (the model
of Python's stable `sorted` with the `st_mtime` key). -/
def insertByMtime (d : ResultDir) : List ResultDir → List ResultDir
  | [] => [d]
  | x :: xs => if d.mtime ≤ x.mtime then d :: x :: xs else x :: insertByMtime d xs

/-- Stable sort by ascending `mtime`. -/
def sortByMtime : List ResultDir → List ResultDir
  | [] => []
  | x :: xs => insertByMtime x (sortByMtime xs)

/-- Python's `ans[-k:]`: the last `k` elements, or the whole list when
`k = 0` (since `ans[-0:] == ans[0:]`) or `k` exceeds the length. -/
def takeLast {α : Type} (k : ℕ) (l : List α) : List α :=
  if k = 0 then l else l.drop (l.length - k)

/-- `SimulationResults._dirs` (optimize.py 205-214): keep the directories
that carry the `.complete` marker, sort ascending by the `params.pickle`
modification time, optionally keep only the last `last` of them.  The
input list is the directory listing in arbitrary (glob) order. -/
def SimulationResults.dirsOf (fs : List ResultDir) (last : Option ℕ) : List ResultDir :=
  let ans := sortByMtime (fs.filter (fun d => d.hasComplete))
  match last with
  | none => ans
  | some k => takeLast k ans

/-- Python's `enumerate`, starting at `i`. -/
def enumFrom {α : Type} : ℕ → List α → List (ℕ × α)
  | _, [] => []
  | i, x :: xs => (i, x) :: enumFrom (i + 1) xs

/-- `SimulationResults.load` (optimize.py 216-220): yield
`(index, total_count, result)` triples over `_dirs(last)`. -/
def SimulationResults.load (fs : List ResultDir) (last : Option ℕ) :
    List (ℕ × ℕ × ResultDir) :=
  let ds := SimulationResults.dirsOf fs last
  (enumFrom 0 ds).map (fun e => (e.1, ds.length, e.2))

/-- Every name bound at module level in `optimize.py`: the imports
(lines 1-19) and the module-level definitions. -/
def optimizeGlobals : List String :=
  ["math", "types", "collections", "itertools", "operator", "os", "sys",
   "shlex", "shutil", "subprocess", "glob", "re", "pickle", "multiprocessing",
   "np", "cma", "loader", "_features", "fitnesses", "utilities",
   "filtereddict", "_exe", "exe_map", "iv_filename", "iv_filename_to_current",
   "execute", "load_simulation", "Simulation", "SimulationResult",
   "SimulationResults", "Param", "AjuParam", "ParamSet", "Fit"]

/-- Every instance attribute ever assigned on a `SimulationResults` object
(optimize.py 201-203: only `__init__` assigns attributes). -/
def simulationResultsAttrs : List String :=
  ["dirname", "features"]

/-- `SimulationResults.ordered` (optimize.py 222-225) first evaluates the
call `convert_to_values(self.results, measurement, fitness)`.  Looking up
the global name `convert_to_values` fails when it is not bound at module
level, raising `NameError` before anything else runs (and
`SimulationResults` never assigns `self.results` either, see
`simulationResultsAttrs`). -/
def SimulationResults.orderedRun : Except PyError Unit :=
  if "convert_to_values" ∈ optimizeGlobals then .ok () else .error .nameError

/-- The execution state of one `Simulation` object (optimize.py 78-142):
`waves` is `none` until `_set_result` (or the `currents is None` branch)
assigns it; `markerWritten` records whether the `.complete` marker file
was written (done only by `_set_result`); `resultAttr` is `none` while the
`_result` attribute has never been assigned, `some none` after the
synchronous path stored `None`, and `some (some ())` after the
asynchronous path stored a pending map handle. -/
structure SimState where
  waves : Option (List ℚ)
  markerWritten : Bool
  resultAttr : Option (Option Unit)
deriving DecidableEq, Repr

/-- `Simulation.__init__` (optimize.py 79-114), with the per-current
simulator run abstracted as `ex`.  Missing `simtime` or `baseline` raises
`ValueError`; `currents=None` assigns an empty wave array and launches
nothing; otherwise the currents are executed synchronously (storing
`_result = None`, setting the waves and writing the marker) or
asynchronously (storing a pending handle; waves and marker are written
later by the callback). -/
def Simulation.init (ex : ℚ → ℚ) (simtime baseline : Option ℚ)
    (currents : Option (List ℚ)) (async : Bool) : Except PyError SimState :=
  if simtime.isNone then .error .valueError
  else if baseline.isNone then .error .valueError
  else .ok (match currents with
    | none => { waves := some [], markerWritten := false, resultAttr := none }
    | some cs =>
      if async then { waves := none, markerWritten := false, resultAttr := some (some ()) }
      else { waves := some (cs.map ex), markerWritten := true, resultAttr := some none })

/-- `Simulation.wait` (optimize.py 140-142): reading `self._result` raises
`AttributeError` when the attribute was never assigned. -/
def Simulation.wait (s : SimState) : Except PyError Unit :=
  match s.resultAttr with
  | none => .error .attributeError
  | some _ => .ok ()

/-- The mutable state of one `Fit` object that the fitness pipeline
touches.  The three caches model the `utilities.cached` decorator on
`sim`, `fitness` and `fitness_full` (dict keyed by the exact
scaled-parameter tuple, insertion at the end); `history` and
`historyFull` split the single `_history` list by the type of the
appended fitness (scalar vs. vector with possible NaN entries);
`dispatchCount` counts `Simulation(...)` constructions. -/
structure FitState where
  simCache : List (List ℚ × ℕ)
  fitCache : List (List ℚ × ℚ)
  fullCache : List (List ℚ × List ℚ)
  history : List ℚ
  historyFull : List (List (Option ℚ))
  fitnessWorst : Option (List ℚ)
  dispatchCount : ℕ
deriving DecidableEq, Repr

/-- A fresh `Fit` right after `__init__`: empty caches, empty history, no
worst-fitness vector recorded. -/
def FitState.init : FitState :=
  { simCache := [], fitCache := [], fullCache := [], history := [],
    historyFull := [], fitnessWorst := none, dispatchCount := 0 }

/-- `Fit.sim` (optimize.py 382-397) under `utilities.cached`.

Modelled from the spec: `utilities.cached` is not under `src/`; the spec
describes it as "a cache mapping a scaled-parameter-vector tuple →
Simulation (at-most-one simulation per distinct parameter vector —
memoization keyed by exact scaled-vector equality)" where "a cache hit
returns the previously computed value without resimulating".  A hit
returns the stored simulation; a miss invokes the dispatcher (`dispatch`
abstracts unscaling the vector and constructing the `Simulation`) and
stores the new entry. -/
def Fit.sim (dispatch : List ℚ → ℕ) (st : FitState) (scaled_params : List ℚ) :
    ℕ × FitState :=
  match alookup st.simCache scaled_params with
  | some s => (s, st)
  | none =>
    let s := dispatch scaled_params
    (s, { st with
            simCache := st.simCache ++ [(scaled_params, s)],
            dispatchCount := st.dispatchCount + 1 })

/-- `Fit.fitness` (optimize.py 412-415) under `utilities.cached` (modelled
from the spec, as for `Fit.sim`): a miss obtains the simulation via
`Fit.sim`, scores it with the fitness function (`fitf` abstracts
`self.fitness_func(sim, self.measurement)`), appends to the history, and
caches the score. -/
def Fit.fitness (dispatch : List ℚ → ℕ) (fitf : ℕ → ℚ) (st : FitState)
    (scaled_params : List ℚ) : ℚ × FitState :=
  match alookup st.fitCache scaled_params with
  | some v => (v, st)
  | none =>
    let p := Fit.sim dispatch st scaled_params
    let f := fitf p.1
    (f, { p.2 with
            fitCache := p.2.fitCache ++ [(scaled_params, f)],
            history := p.2.history ++ [f] })

/-- `Fit.fitness_max` (optimize.py 341). -/
def Fit.fitness_max : ℚ := 200

/-- The elementwise clamp done by `sim_fitness(..., full=True,
max_fitness=18)` (optimize.py 399-406): entries above 18 become 18; a NaN
entry (`none`) is unchanged, since `nan > 18` is false. -/
def clampAt18 (o : Option ℚ) : Option ℚ :=
  o.map (fun x => if 18 < x then (18 : ℚ) else x)

/-- `Fit.fitness_full` (optimize.py 417-434) under `utilities.cached`
(modelled from the spec, as for `Fit.sim`; an exception is not cached).

When `self._fitness_worst` is already recorded the source runs
`pen = penalty(scaled_params, self.bounds, max_fitness=20,
worst=self._fitness_worst)`.  `penalty` is not bound at module level in
optimize.py (see `optimizeGlobals`) — and `Fit` never assigns a `bounds`
attribute — so evaluating that line raises `NameError`; the `.ok` arm of
the lookup is unreachable.  Otherwise the simulation is scored with the
full fitness vector (`fitfFull` abstracts `self.fitness_func(sim,
self.measurement, full=True)`; `none` entries are NaN), clamped at 18,
NaN entries are replaced by `fitness_max`, the result is recorded as the
worst-fitness vector, and its negation is cached and returned. -/
def Fit.fitness_full (dispatch : List ℚ → ℕ) (fitfFull : ℕ → List (Option ℚ))
    (st : FitState) (scaled_params : List ℚ) :
    Except PyError (List ℚ) × FitState :=
  match alookup st.fullCache scaled_params with
  | some v => (.ok v, st)
  | none =>
    match st.fitnessWorst with
    | some _ =>
      (if "penalty" ∈ optimizeGlobals then .ok [] else .error .nameError, st)
    | none =>
      let p := Fit.sim dispatch st scaled_params
      let raw := (fitfFull p.1).map clampAt18
      let st1 := { p.2 with historyFull := p.2.historyFull ++ [raw] }
      let ans := raw.map (fun o => o.getD Fit.fitness_max)
      let ret := ans.map (fun x => -x)
      (.ok ret, { st1 with
                    fitnessWorst := some ans,
                    fullCache := st1.fullCache ++ [(scaled_params, ret)] })

/-- The options dict built by `Fit.do_fit` for `cma.CMAEvolutionStrategy`
(optimize.py 460-466). -/
structure CMAOpts where
  bounds : List (Option ℚ) × List (Option ℚ)
  popsize : ℕ
  seed : ℕ
deriving DecidableEq, Repr

/-- `opts = dict(bounds=bounds, popsize=popsize, seed=123)` from
`Fit.do_fit` (optimize.py 464-465): the `seed` parameter of `do_fit` is
never read; the literal `123` is stored instead. -/
def Fit.do_fit_opts (ps : ParamSet) (popsize seed : ℕ) : CMAOpts :=
  { bounds := ps.scaled_bounds, popsize := popsize, seed := 123 }

/-- Equality of `Except` results is decidable componentwise. -/
instance {ε α : Type} [DecidableEq ε] [DecidableEq α] : DecidableEq (Except ε α)
  | .error x, .error y =>
    if h : x = y then isTrue (by rw [h])
    else isFalse (by intro hc; cases hc; exact h rfl)
  | .error _, .ok _ => isFalse (by intro hc; cases hc)
  | .ok _, .error _ => isFalse (by intro hc; cases hc)
  | .ok x, .ok y =>
    if h : x = y then isTrue (by rw [h])
    else isFalse (by intro hc; cases hc; exact h rfl)

/-- C9: constructing a `Simulation` with `currents=None` (and valid
`simtime` and `baseline`) stores an empty wave array and never writes the
`.complete` marker, and a subsequent `wait()` raises `AttributeError`
because `_result` was never assigned. -/
theorem simulation_none_currents_wait_attribute_error
    (ex : ℚ → ℚ) (simtime baseline : ℚ) (async : Bool) :
    Simulation.init ex (some simtime) (some baseline) none async
      = Except.ok { waves := some [], markerWritten := false, resultAttr := none } ∧
    Simulation.wait { waves := some [], markerWritten := false, resultAttr := none }
      = Except.error PyError.attributeError :=
  ⟨rfl, rfl⟩

/-- C10: `Fit.do_fit` ignores its `seed` argument — two invocations that
differ only in the seed build identical optimizer options, because the
options dict hardcodes `seed=123`. -/
theorem do_fit_opts_ignore_seed (ps : ParamSet) (popsize s1 s2 : ℕ) :
    Fit.do_fit_opts ps popsize s1 = Fit.do_fit_opts ps popsize s2 :=
  rfl

/-- C7: `SimulationResults.ordered` cannot rank anything: its first step,
the call `convert_to_values(self.results, ...)`, raises `NameError`
because `convert_to_values` is not bound at module level in optimize.py
(and no `results` attribute is ever assigned on `SimulationResults`). -/
theorem ordered_raises_name_error :
    SimulationResults.orderedRun = Except.error PyError.nameError ∧
    "convert_to_values" ∉ optimizeGlobals ∧
    "results" ∉ simulationResultsAttrs := by
  decide

/-- C1 (divergence witness): after one successful in-bounds evaluation has
recorded the worst-fitness vector, a further `fitness_full` call does not
return a worst-fitness penalty: it raises `NameError`, because the name
`penalty` is not bound at module level in optimize.py (and `Fit` never
assigns `self.bounds`).  No new simulation is dispatched on that call. -/
theorem fitness_full_after_first_raises_name_error :
    "penalty" ∉ optimizeGlobals ∧
    (Fit.fitness_full (fun _ => 0) (fun _ => [some 1, none]) FitState.init [1]).1
      = Except.ok [-1, -200] ∧
    ((Fit.fitness_full (fun _ => 0) (fun _ => [some 1, none]) FitState.init [1]).2.fitnessWorst
      = some [1, 200]) ∧
    ((Fit.fitness_full (fun _ => 0) (fun _ => [some 1, none]) FitState.init [1]).2.dispatchCount
      = 1) ∧
    Fit.fitness_full (fun _ => 0) (fun _ => [some 1, none])
        (Fit.fitness_full (fun _ => 0) (fun _ => [some 1, none]) FitState.init [1]).2 [20]
      = (Except.error PyError.nameError,
         (Fit.fitness_full (fun _ => 0) (fun _ => [some 1, none]) FitState.init [1]).2) := by
  decide

/-- Concrete one-optimizable-param set used to exhibit `update`'s handling
of unknown names. -/
def psUpdDemo : ParamSet :=
  ⟨[.aju { name := "a", value := 1 }]⟩

/-- C8 (counterexample): `update` called with a name that occurs nowhere
in the set does not fail with a lookup error — it returns normally, with
every param unchanged. -/
theorem update_unknown_name_no_error :
    psUpdDemo.update [("b", 5)] = psUpdDemo := by
  decide

/-- C8 (amended): `update` never consults keyword names that match no
param: when no param's name occurs in the keyword arguments, the set is
returned unchanged and no error is raised. -/
theorem update_unknown_names_ignored (ps : ParamSet) (kwargs : List (String × ℚ))
    (h : ∀ p ∈ ps.params, alookup kwargs p.name = none) :
    ps.update kwargs = ps := by
  cases ps with
  | mk l =>
    simp only [ParamSet.update, ParamSet.mk.injEq]
    induction l with
    | nil => rfl
    | cons p rest ih =>
      have hp : alookup kwargs p.name = none := h p (List.mem_cons_self p rest)
      have hrest := ih (fun q hq => h q (List.mem_cons_of_mem p hq))
      simp [hp, hrest]

/-- If a key is absent from an association list, no entry carries it. -/
theorem alookup_none_key_ne {α β : Type} [DecidableEq α] {l : List (α × β)} {k : α}
    (h : alookup l k = none) : ∀ e ∈ l, e.1 ≠ k := by
  induction l with
  | nil => intro e he; exact absurd he (List.not_mem_nil e)
  | cons x rest ih =>
    intro e he
    simp only [alookup] at h
    split at h
    · exact absurd h (by simp)
    · rename_i hx
      rcases List.mem_cons.mp he with rfl | he'
      · exact hx
      · exact ih h e he'

/-- Appending a fresh key makes it found by lookup. -/
theorem alookup_append_singleton {α β : Type} [DecidableEq α] {l : List (α × β)} {k : α}
    (v : β) (h : alookup l k = none) : alookup (l ++ [(k, v)]) k = some v := by
  induction l with
  | nil => simp [alookup]
  | cons x rest ih =>
    simp only [alookup, List.cons_append] at h ⊢
    split at h
    · exact absurd h (by simp)
    · rename_i hx
      rw [if_neg hx]
      exact ih h

/-- A key absent from an association list has no occurrences to count. -/
theorem countP_key_zero {α β : Type} [DecidableEq α] {l : List (α × β)} {k : α}
    (h : alookup l k = none) : l.countP (fun e => decide (e.1 = k)) = 0 := by
  rw [List.countP_eq_zero]
  intro e he
  simpa using alookup_none_key_ne h e he

/-- A key absent from an association list is not among its keys. -/
theorem key_not_mem_of_alookup_none {α β : Type} [DecidableEq α] {l : List (α × β)} {k : α}
    (h : alookup l k = none) : k ∉ l.map Prod.fst := by
  intro hk
  rcases List.mem_map.mp hk with ⟨e, he, hek⟩
  exact alookup_none_key_ne h e he hek

/-- A `Fit.fitness` cache hit returns the stored value and leaves the
state untouched. -/
theorem fitness_hit (dispatch : List ℚ → ℕ) (fitf : ℕ → ℚ) (st : FitState)
    (v : List ℚ) (w : ℚ) (h : alookup st.fitCache v = some w) :
    Fit.fitness dispatch fitf st v = (w, st) := by
  simp [Fit.fitness, h]

/-- A `Fit.fitness` miss on a vector with no cached simulation dispatches
one simulation, caches it and the fitness, and appends to the history. -/
theorem fitness_miss (dispatch : List ℚ → ℕ) (fitf : ℕ → ℚ) (st : FitState)
    (v : List ℚ) (hf : alookup st.fitCache v = none)
    (hs : alookup st.simCache v = none) :
    Fit.fitness dispatch fitf st v
      = (fitf (dispatch v),
         { simCache := st.simCache ++ [(v, dispatch v)],
           fitCache := st.fitCache ++ [(v, fitf (dispatch v))],
           fullCache := st.fullCache,
           history := st.history ++ [fitf (dispatch v)],
           historyFull := st.historyFull,
           fitnessWorst := st.fitnessWorst,
           dispatchCount := st.dispatchCount + 1 }) := by
  simp [Fit.fitness, Fit.sim, hf, hs]

/-- C2: submitting the same scaled-parameter vector to `Fit.fitness`
twice (single driving thread) dispatches the simulation exactly once: the
first call adds one dispatch, the second is a pure cache hit returning
the same value with the state unchanged, the cache keys stay distinct,
and the cache holds exactly one simulation for that vector. -/
theorem fitness_memoizes_one_dispatch (dispatch : List ℚ → ℕ) (fitf : ℕ → ℚ)
    (st : FitState) (v : List ℚ)
    (hs : alookup st.simCache v = none)
    (hf : alookup st.fitCache v = none)
    (hnd : (st.simCache.map Prod.fst).Nodup) :
    (Fit.fitness dispatch fitf st v).2.dispatchCount = st.dispatchCount + 1 ∧
    Fit.fitness dispatch fitf (Fit.fitness dispatch fitf st v).2 v
      = Fit.fitness dispatch fitf st v ∧
    ((Fit.fitness dispatch fitf st v).2.simCache.map Prod.fst).Nodup ∧
    (Fit.fitness dispatch fitf st v).2.simCache.countP (fun e => decide (e.1 = v)) = 1 := by
  rw [fitness_miss dispatch fitf st v hf hs]
  refine ⟨rfl, ?_, ?_, ?_⟩
  · exact fitness_hit dispatch fitf _ v (fitf (dispatch v))
      (alookup_append_singleton (fitf (dispatch v)) hf)
  · simp only [List.map_append, List.map_cons, List.map_nil]
    rw [List.nodup_append]
    refine ⟨hnd, List.nodup_singleton v, ?_⟩
    intro a ha hav
    rcases List.mem_singleton.mp hav with rfl
    exact key_not_mem_of_alookup_none hs ha
  · rw [List.countP_append, countP_key_zero hs]
    simp

/-- C2 at a concrete input: a fresh `Fit`, one vector submitted twice. -/
theorem fitness_memoizes_one_dispatch_witness :
    alookup FitState.init.simCache [1] = none ∧
    alookup FitState.init.fitCache [1] = none ∧
    (FitState.init.simCache.map Prod.fst).Nodup ∧
    ((Fit.fitness (fun _ => 0) (fun _ => 7) FitState.init [1]).2.dispatchCount
        = FitState.init.dispatchCount + 1 ∧
     Fit.fitness (fun _ => 0) (fun _ => 7)
         (Fit.fitness (fun _ => 0) (fun _ => 7) FitState.init [1]).2 [1]
       = Fit.fitness (fun _ => 0) (fun _ => 7) FitState.init [1] ∧
     ((Fit.fitness (fun _ => 0) (fun _ => 7) FitState.init [1]).2.simCache.map Prod.fst).Nodup ∧
     (Fit.fitness (fun _ => 0) (fun _ => 7) FitState.init [1]).2.simCache.countP
         (fun e => decide (e.1 = [1])) = 1) :=
  ⟨rfl, rfl, List.nodup_nil,
   fitness_memoizes_one_dispatch (fun _ => 0) (fun _ => 7) FitState.init [1]
     rfl rfl List.nodup_nil⟩

/-- C8 witness: the amended statement at the concrete one-param set. -/
theorem update_unknown_names_ignored_witness :
    (∀ p ∈ psUpdDemo.params, alookup [("b", (5 : ℚ))] p.name = none) ∧
    psUpdDemo.update [("b", 5)] = psUpdDemo :=
  ⟨by decide, update_unknown_names_ignored psUpdDemo [("b", 5)] (by decide)⟩

/-- Inserting a fresh key into an ordered dict appends it. -/
theorem odInsert_fresh (acc : List (String × PValue)) (kv : String × PValue)
    (h : kv.1 ∉ acc.map Prod.fst) : odInsert acc kv = acc ++ [kv] := by
  induction acc with
  | nil => rfl
  | cons e rest ih =>
    simp only [List.map_cons, List.mem_cons] at h
    push_neg at h
    simp only [odInsert]
    rw [if_neg (fun he => h.1 he.symm)]
    simp [ih h.2]

/-- Building an ordered dict from pairs with pairwise-distinct keys keeps
the pairs as they are. -/
theorem odOfList_foldl_nodup (l : List (String × PValue)) :
    ∀ acc : List (String × PValue), ((acc ++ l).map Prod.fst).Nodup →
      l.foldl odInsert acc = acc ++ l := by
  induction l with
  | nil => intro acc _; simp
  | cons kv rest ih =>
    intro acc h
    have hk : kv.1 ∉ acc.map Prod.fst := by
      rw [List.map_append, List.nodup_append] at h
      intro hmem
      exact h.2.2 hmem (by simp)
    rw [List.foldl_cons, odInsert_fresh acc kv hk]
    have h' : (((acc ++ [kv]) ++ rest).map Prod.fst).Nodup := by simpa using h
    simpa using ih (acc ++ [kv]) h'

/-- `odOfList` on pairwise-distinct keys is the identity. -/
theorem odOfList_keys_nodup (l : List (String × PValue))
    (h : (l.map Prod.fst).Nodup) : odOfList l = l :=
  odOfList_foldl_nodup l [] (by simpa using h)

/-- Lookup skips a prefix that does not carry the key. -/
theorem alookup_append_of_not_mem {α β : Type} [DecidableEq α] {l₁ : List (α × β)}
    (l₂ : List (α × β)) {k : α} (h : k ∉ l₁.map Prod.fst) :
    alookup (l₁ ++ l₂) k = alookup l₂ k := by
  induction l₁ with
  | nil => rfl
  | cons e rest ih =>
    simp only [List.map_cons, List.mem_cons] at h
    push_neg at h
    simp only [List.cons_append, alookup]
    rw [if_neg (fun he => h.1 he.symm)]
    exact ih h.2

/-- With pairwise-distinct names, looking a param's name up in the
name-to-stored-value pairs finds its own stored value. -/
theorem alookup_map_name_value {l : List Param} (hn : (l.map Param.name).Nodup)
    {p : Param} (hp : p ∈ l) :
    alookup (l.map (fun q => (q.name, q.value))) p.name = some p.value := by
  induction l with
  | nil => cases hp
  | cons q rest ih =>
    simp only [List.map_cons, alookup]
    rcases List.mem_cons.mp hp with rfl | hp'
    · rw [if_pos rfl]
    · have hq : q.name ∉ rest.map Param.name := (List.nodup_cons.mp hn).1
      have hne : q.name ≠ p.name := by
        intro he
        exact hq (he ▸ List.mem_map_of_mem Param.name hp')
      rw [if_neg hne]
      exact ih (List.nodup_cons.mp hn).2 hp'

/-- The optimizable params' names are the names of the non-fixed members,
in order. -/
theorem aju_names_eq (ps : ParamSet) :
    ps.ajuparams.map AjuParam.name
      = (ps.params.filter (fun p => !p.fixed)).map Param.name := by
  cases ps with
  | mk l =>
    induction l with
    | nil => rfl
    | cons p rest ih =>
      cases p with
      | fixedP n v => simpa [ParamSet.ajuparams, Param.fixed] using ih
      | aju a => simpa [ParamSet.ajuparams, Param.fixed, Param.name] using ih

/-- With pairwise-distinct param names, the optimizable names followed by
the fixed names are pairwise distinct as well. -/
theorem names_partition_nodup (ps : ParamSet)
    (hn : (ps.params.map Param.name).Nodup) :
    (ps.ajuparams.map AjuParam.name ++ ps.fixedparams.map Param.name).Nodup := by
  have hperm : List.Perm
      (ps.params.filter (fun p => !p.fixed) ++ ps.params.filter (fun p => p.fixed))
      ps.params := by
    have h0 := List.filter_append_perm (fun p => !p.fixed) ps.params
    have he : ps.params.filter (fun p => !(!p.fixed)) = ps.params.filter (fun p => p.fixed) :=
      List.filter_congr (fun a _ => by simp)
    rwa [he] at h0
  have hmap := hperm.map Param.name
  rw [List.map_append] at hmap
  rw [aju_names_eq]
  exact (hmap.nodup_iff).mpr hn

/-- The optimizable and fixed params together count the whole set. -/
theorem params_length_split (ps : ParamSet) :
    ps.ajuparams.length + ps.fixedparams.length = ps.params.length := by
  have hperm : List.Perm
      (ps.params.filter (fun p => !p.fixed) ++ ps.params.filter (fun p => p.fixed))
      ps.params := by
    have h0 := List.filter_append_perm (fun p => !p.fixed) ps.params
    have he : ps.params.filter (fun p => !(!p.fixed)) = ps.params.filter (fun p => p.fixed) :=
      List.filter_congr (fun a _ => by simp)
    rwa [he] at h0
  have hlen := hperm.length_eq
  rw [List.length_append] at hlen
  have haju : ps.ajuparams.length = (ps.params.filter (fun p => !p.fixed)).length := by
    have := congrArg List.length (aju_names_eq ps)
    simpa using this
  rw [haju]
  exact hlen

/-- C5: `scaled` has one entry per optimizable param; `unscaled_dict` on a
scaled vector of the right length succeeds and returns a complete
name-to-value mapping with exactly one entry per param of the set, every
fixed param's stored value unchanged; any other length fails with the
length-mismatch error. -/
theorem paramset_scaled_unscaled_dict (ps : ParamSet)
    (hn : (ps.params.map Param.name).Nodup) :
    ps.scaled.length = ps.ajuparams.length ∧
    (∀ sv : List ℚ, sv.length = ps.ajuparams.length →
      ∃ d, ps.unscaled_dict sv = some d ∧
        d.length = ps.params.length ∧
        ∀ p ∈ ps.fixedparams, alookup d p.name = some p.value) ∧
    (∀ sv : List ℚ, sv.length ≠ ps.ajuparams.length → ps.unscaled_dict sv = none) := by
  have hpn := names_partition_nodup ps hn
  refine ⟨by simp [ParamSet.scaled], ?_, ?_⟩
  · intro sv hsv
    have hzipkeys : ((ps.ajuparams.zip sv).map
          (fun pv => (pv.1.name, PValue.num (pv.1.unscale pv.2)))).map Prod.fst
        = ps.ajuparams.map AjuParam.name := by
      rw [List.map_map]
      have h1 : ((ps.ajuparams.zip sv).map
            (Prod.fst ∘ fun pv : AjuParam × ℚ => (pv.1.name, PValue.num (pv.1.unscale pv.2))))
          = ((ps.ajuparams.zip sv).map Prod.fst).map AjuParam.name := by
        rw [List.map_map]; rfl
      rw [h1, List.map_fst_zip]
      exact le_of_eq hsv.symm
    have hfixkeys : (ps.fixedparams.map (fun p => (p.name, p.value))).map Prod.fst
        = ps.fixedparams.map Param.name := by
      rw [List.map_map]; rfl
    have hkeys : (((ps.ajuparams.zip sv).map
          (fun pv => (pv.1.name, PValue.num (pv.1.unscale pv.2)))
        ++ ps.fixedparams.map (fun p => (p.name, p.value))).map Prod.fst).Nodup := by
      rw [List.map_append, hzipkeys, hfixkeys]
      exact hpn
    have hod := odOfList_keys_nodup _ hkeys
    refine ⟨_, by rw [ParamSet.unscaled_dict, if_pos hsv], ?_, ?_⟩
    · rw [hod, List.length_append, List.length_map, List.length_map, List.length_zip,
          hsv, min_self]
      exact params_length_split ps
    · intro p hp
      rw [hod]
      have hnotin : p.name ∉ ((ps.ajuparams.zip sv).map
            (fun pv => (pv.1.name, PValue.num (pv.1.unscale pv.2)))).map Prod.fst := by
        rw [hzipkeys]
        have hdisj := (List.nodup_append.mp hpn).2.2
        intro hin
        exact hdisj hin (List.mem_map_of_mem Param.name hp)
      rw [alookup_append_of_not_mem _ hnotin]
      exact alookup_map_name_value (List.nodup_append.mp hpn).2.1 hp
  · intro sv hsv
    rw [ParamSet.unscaled_dict, if_neg hsv]

/-- Inserting into the mtime-sorted list permutes consing. -/
theorem insertByMtime_perm (d : ResultDir) (l : List ResultDir) :
    List.Perm (insertByMtime d l) (d :: l) := by
  induction l with
  | nil => exact List.Perm.refl _
  | cons x xs ih =>
    rw [insertByMtime]
    by_cases h : d.mtime ≤ x.mtime
    · rw [if_pos h]
    · rw [if_neg h]
      exact (ih.cons x).trans (List.Perm.swap d x xs)

/-- The mtime sort permutes its input. -/
theorem sortByMtime_perm (l : List ResultDir) : List.Perm (sortByMtime l) l := by
  induction l with
  | nil => exact List.Perm.refl _
  | cons x xs ih => exact (insertByMtime_perm x (sortByMtime xs)).trans (ih.cons x)

/-- Insertion keeps the list sorted by ascending mtime. -/
theorem insertByMtime_sorted {d : ResultDir} {l : List ResultDir}
    (h : l.Pairwise (fun a b => a.mtime ≤ b.mtime)) :
    (insertByMtime d l).Pairwise (fun a b => a.mtime ≤ b.mtime) := by
  induction l with
  | nil => simp [insertByMtime]
  | cons x xs ih =>
    rw [insertByMtime]
    by_cases hd : d.mtime ≤ x.mtime
    · rw [if_pos hd]
      refine List.Pairwise.cons ?_ h
      intro b hb
      rcases List.mem_cons.mp hb with rfl | hb'
      · exact hd
      · exact le_trans hd (List.rel_of_pairwise_cons h hb')
    · rw [if_neg hd]
      have hx := List.pairwise_cons.mp h
      refine List.Pairwise.cons ?_ (ih hx.2)
      intro b hb
      have hb' := (insertByMtime_perm d xs).subset hb
      rcases List.mem_cons.mp hb' with rfl | hbxs
      · exact le_of_not_le hd
      · exact hx.1 b hbxs

/-- The mtime sort sorts ascending. -/
theorem sortByMtime_sorted (l : List ResultDir) :
    (sortByMtime l).Pairwise (fun a b => a.mtime ≤ b.mtime) := by
  induction l with
  | nil => exact List.Pairwise.nil
  | cons x xs ih => exact insertByMtime_sorted ih

/-- The values of an enumeration are the enumerated list. -/
theorem enumFrom_map_snd {α : Type} :
    ∀ (i : ℕ) (l : List α), (enumFrom i l).map Prod.snd = l
  | _, [] => rfl
  | i, x :: xs => by simp [enumFrom, enumFrom_map_snd (i + 1) xs]

/-- Enumeration preserves length. -/
theorem enumFrom_length {α : Type} :
    ∀ (i : ℕ) (l : List α), (enumFrom i l).length = l.length
  | _, [] => rfl
  | i, x :: xs => by simp [enumFrom, enumFrom_length (i + 1) xs]

/-- The directories yielded by `load` are exactly `_dirs(last)`, in order. -/
theorem load_map_dirs (fs : List ResultDir) (last : Option ℕ) :
    (SimulationResults.load fs last).map (fun t => t.2.2)
      = SimulationResults.dirsOf fs last := by
  simp only [SimulationResults.load]
  rw [List.map_map]
  have h : ((fun t : ℕ × ℕ × ResultDir => t.2.2) ∘
      (fun e : ℕ × ResultDir => (e.1, (SimulationResults.dirsOf fs last).length, e.2)))
      = Prod.snd := rfl
  rw [h, enumFrom_map_snd]

/-- `_dirs` only returns completed directories (with the marker). -/
theorem dirsOf_mem_filter (fs : List ResultDir) (last : Option ℕ) :
    ∀ d ∈ SimulationResults.dirsOf fs last, d ∈ fs.filter (fun x => x.hasComplete) := by
  intro d hd
  have hsub : d ∈ sortByMtime (fs.filter (fun x => x.hasComplete)) := by
    cases last with
    | none => exact hd
    | some k =>
      simp only [SimulationResults.dirsOf, takeLast] at hd
      split at hd
      · exact hd
      · exact List.drop_subset _ _ hd
  exact (sortByMtime_perm _).subset hsub

/-- `_dirs` is sorted ascending by mtime for every `last`. -/
theorem dirsOf_sorted (fs : List ResultDir) (last : Option ℕ) :
    (SimulationResults.dirsOf fs last).Pairwise (fun a b => a.mtime ≤ b.mtime) := by
  cases last with
  | none => exact sortByMtime_sorted _
  | some k =>
    simp only [SimulationResults.dirsOf, takeLast]
    split
    · exact sortByMtime_sorted _
    · exact List.Pairwise.sublist (List.drop_sublist _ _) (sortByMtime_sorted _)

/-- C6: `load` never yields a marker-less directory; it yields directories
in ascending creation (mtime) order; and `load(last=n)` over at least `n`
completed directories (`n ≥ 1`) yields exactly `n` triples, each carrying
`n` as the total count, and exactly the most recently created completed
directories: any completed directory left out has mtime at most that of
every yielded one. -/
theorem load_complete_sorted_last (fs : List ResultDir) (last : Option ℕ) (n : ℕ)
    (hn0 : 0 < n) (hn : n ≤ (fs.filter (fun x => x.hasComplete)).length) :
    (∀ t ∈ SimulationResults.load fs last, t.2.2.hasComplete = true) ∧
    ((SimulationResults.load fs last).map (fun t => t.2.2.mtime)).Pairwise
      (fun a b => a ≤ b) ∧
    (SimulationResults.load fs (some n)).length = n ∧
    (∀ t ∈ SimulationResults.load fs (some n), t.2.1 = n) ∧
    (∀ d ∈ fs, d.hasComplete = true →
      d ∉ (SimulationResults.load fs (some n)).map (fun t => t.2.2) →
      ∀ t ∈ SimulationResults.load fs (some n), d.mtime ≤ t.2.2.mtime) := by
  have hmemds : ∀ (lst : Option ℕ) (t : ℕ × ℕ × ResultDir),
      t ∈ SimulationResults.load fs lst → t.2.2 ∈ SimulationResults.dirsOf fs lst := by
    intro lst t ht
    have h2 : t.2.2 ∈ (SimulationResults.load fs lst).map (fun t => t.2.2) :=
      List.mem_map_of_mem _ ht
    rwa [load_map_dirs] at h2
  have hanslen : (sortByMtime (fs.filter (fun x => x.hasComplete))).length
      = (fs.filter (fun x => x.hasComplete)).length :=
    (sortByMtime_perm _).length_eq
  have hdslen : (SimulationResults.dirsOf fs (some n)).length = n := by
    simp only [SimulationResults.dirsOf, takeLast, if_neg (Nat.pos_iff_ne_zero.mp hn0)]
    rw [List.length_drop, hanslen]
    exact Nat.sub_sub_self (hanslen ▸ (hanslen.symm ▸ hn))
  refine ⟨?_, ?_, ?_, ?_, ?_⟩
  · intro t ht
    have := dirsOf_mem_filter fs last _ (hmemds last t ht)
    exact (List.mem_filter.mp this).2
  · have heq : (SimulationResults.load fs last).map (fun t => t.2.2.mtime)
        = ((SimulationResults.load fs last).map (fun t => t.2.2)).map ResultDir.mtime := by
      rw [List.map_map]; rfl
    rw [heq, load_map_dirs, List.pairwise_map]
    exact dirsOf_sorted fs last
  · simp only [SimulationResults.load]
    rw [List.length_map, enumFrom_length]
    exact hdslen
  · intro t ht
    simp only [SimulationResults.load] at ht
    rcases List.mem_map.mp ht with ⟨e, _, rfl⟩
    exact hdslen
  · intro d hd hdc hnot t ht
    have hdf : d ∈ fs.filter (fun x => x.hasComplete) := List.mem_filter.mpr ⟨hd, hdc⟩
    have hdans : d ∈ sortByMtime (fs.filter (fun x => x.hasComplete)) :=
      (sortByMtime_perm _).mem_iff.mpr hdf
    have hds : SimulationResults.dirsOf fs (some n)
        = (sortByMtime (fs.filter (fun x => x.hasComplete))).drop
            ((sortByMtime (fs.filter (fun x => x.hasComplete))).length - n) := by
      simp only [SimulationResults.dirsOf, takeLast, if_neg (Nat.pos_iff_ne_zero.mp hn0)]
    have hnot' : d ∉ (sortByMtime (fs.filter (fun x => x.hasComplete))).drop
        ((sortByMtime (fs.filter (fun x => x.hasComplete))).length - n) := by
      rw [load_map_dirs, hds] at hnot
      exact hnot
    have hdans2 : d ∈ (sortByMtime (fs.filter (fun x => x.hasComplete))).take
          ((sortByMtime (fs.filter (fun x => x.hasComplete))).length - n)
        ++ (sortByMtime (fs.filter (fun x => x.hasComplete))).drop
          ((sortByMtime (fs.filter (fun x => x.hasComplete))).length - n) := by
      rw [List.take_append_drop]
      exact hdans
    have hdtake : d ∈ (sortByMtime (fs.filter (fun x => x.hasComplete))).take
        ((sortByMtime (fs.filter (fun x => x.hasComplete))).length - n) := by
      rcases List.mem_append.mp hdans2 with h | h
      · exact h
      · exact absurd h hnot'
    have htd : t.2.2 ∈ (sortByMtime (fs.filter (fun x => x.hasComplete))).drop
        ((sortByMtime (fs.filter (fun x => x.hasComplete))).length - n) := by
      have := hmemds (some n) t ht
      rwa [hds] at this
    have hsp2 : ((sortByMtime (fs.filter (fun x => x.hasComplete))).take
          ((sortByMtime (fs.filter (fun x => x.hasComplete))).length - n)
        ++ (sortByMtime (fs.filter (fun x => x.hasComplete))).drop
          ((sortByMtime (fs.filter (fun x => x.hasComplete))).length - n)).Pairwise
        (fun a b => a.mtime ≤ b.mtime) := by
      rw [List.take_append_drop]
      exact sortByMtime_sorted _
    exact (List.pairwise_append.mp hsp2).2.2 d hdtake t.2.2 htd

/-- Concrete directory listing: five completed directories (in scrambled
glob order) and one still-running directory without the marker. -/
def fsDemo : List ResultDir :=
  [{ dirname := "d3", hasComplete := true, mtime := 3 },
   { dirname := "d1", hasComplete := true, mtime := 1 },
   { dirname := "d5", hasComplete := true, mtime := 5 },
   { dirname := "d0", hasComplete := false, mtime := 6 },
   { dirname := "d2", hasComplete := true, mtime := 2 },
   { dirname := "d4", hasComplete := true, mtime := 4 }]

/-- C6 at a concrete input: `load(last=2)` over five completed
directories. -/
theorem load_complete_sorted_last_witness :
    (0 < 2 ∧ 2 ≤ (fsDemo.filter (fun x => x.hasComplete)).length) ∧
    ((∀ t ∈ SimulationResults.load fsDemo (some 2), t.2.2.hasComplete = true) ∧
     ((SimulationResults.load fsDemo (some 2)).map (fun t => t.2.2.mtime)).Pairwise
       (fun a b => a ≤ b) ∧
     (SimulationResults.load fsDemo (some 2)).length = 2 ∧
     (∀ t ∈ SimulationResults.load fsDemo (some 2), t.2.1 = 2) ∧
     (∀ d ∈ fsDemo, d.hasComplete = true →
       d ∉ (SimulationResults.load fsDemo (some 2)).map (fun t => t.2.2) →
       ∀ t ∈ SimulationResults.load fsDemo (some 2), d.mtime ≤ t.2.2.mtime)) :=
  ⟨⟨by decide, by decide⟩,
   load_complete_sorted_last fsDemo (some 2) 2 (by decide) (by decide)⟩

/-- `Int.log` is preserved by casting a positive rational to the reals. -/
theorem intLog_ratCast (q : ℚ) (hq : 0 < q) : Int.log 10 ((q : ℝ)) = Int.log 10 q := by
  have hq' : (0 : ℝ) < (q : ℝ) := by exact_mod_cast hq
  have hb : 1 < 10 := by norm_num
  apply le_antisymm
  · rw [← Int.zpow_le_iff_le_log hb hq, ← Rat.cast_le (K := ℝ)]
    push_cast
    exact Int.zpow_log_le_self hb hq'
  · rw [← Int.zpow_le_iff_le_log hb hq']
    have h := Int.zpow_log_le_self (b := 10) hb hq
    rw [← Rat.cast_le (K := ℝ)] at h
    push_cast at h
    exact h

/-- `Int.log 10 50 = 1` over the rationals. -/
theorem int_log_fifty : Int.log 10 (50 : ℚ) = 1 := by
  have hcast : ((50 : ℕ) : ℚ) = (50 : ℚ) := by norm_num
  rw [← hcast, Int.log_natCast]
  have h : Nat.log 10 50 = 1 :=
    Nat.log_eq_of_pow_le_of_lt_pow (by norm_num) (by norm_num)
  rw [h]
  norm_num

/-- The scaling factor of `AjuParam("gmax", 50, 0, 100)` is 10. -/
theorem scalingFor_gmax : scalingFor 50 (some 0) (some 100) = 10 := by
  have h50 : refValue 50 (some 0) (some 100) = 50 := by norm_num [refValue]
  simp only [scalingFor, h50]
  rw [if_neg (by norm_num), if_neg (by norm_num), show |(50 : ℚ)| = 50 by norm_num,
      int_log_fifty]
  norm_num

/-- The scenario `ParamSet` of one optimizable conductance and one fixed
morphology file. -/
def gmaxMorph : ParamSet :=
  ⟨[.aju { name := "gmax", value := 50, min := some 0, max := some 100 },
    .fixedP "morph" (.str "file.p")]⟩

/-- C4: the scaling factor follows the spec formula — with reference value
`r` (value if nonzero, else max if nonzero, else min, else 0), the factor
is `1` when `|log10 |r|| ≤ 1` and `10 ^ ⌊log10 |r|⌋` when `|log10 |r|| > 1`
— and on the scenario set the optimizable and fixed partitions have one
param each and the scaled bounds are `([0], [10])` (scale 10 from
reference 50). -/
theorem scaling_formula_and_gmax_scenario :
    (∀ (value : ℚ) (mn mx : Option ℚ), refValue value mn mx ≠ 0 →
      ((abs (Real.logb 10 (abs ((refValue value mn mx : ℚ) : ℝ))) ≤ 1 →
          scalingFor value mn mx = 1) ∧
       (1 < abs (Real.logb 10 (abs ((refValue value mn mx : ℚ) : ℝ))) →
          ((scalingFor value mn mx : ℚ) : ℝ)
            = (10 : ℝ) ^ ⌊Real.logb 10 (abs ((refValue value mn mx : ℚ) : ℝ))⌋))) ∧
    gmaxMorph.ajuparams.length = 1 ∧
    gmaxMorph.fixedparams.length = 1 ∧
    gmaxMorph.scaled_bounds = ([some 0], [some 10]) := by
  refine ⟨?_, by decide, by decide, ?_⟩
  · intro value mn mx hr
    have hrpos : (0 : ℝ) < abs ((refValue value mn mx : ℚ) : ℝ) :=
      abs_pos.mpr (by exact_mod_cast hr)
    have hb : (1 : ℝ) < 10 := by norm_num
    have habs : abs ((refValue value mn mx : ℚ) : ℝ) = ((abs (refValue value mn mx) : ℚ) : ℝ) :=
      (Rat.cast_abs _).symm
    have hle : Real.logb 10 (abs ((refValue value mn mx : ℚ) : ℝ)) ≤ 1
        ↔ abs ((refValue value mn mx : ℚ) : ℝ) ≤ 10 := by
      rw [Real.logb_le_iff_le_rpow hb hrpos, Real.rpow_one]
    have hge : (-1 : ℝ) ≤ Real.logb 10 (abs ((refValue value mn mx : ℚ) : ℝ))
        ↔ (10 : ℝ)⁻¹ ≤ abs ((refValue value mn mx : ℚ) : ℝ) := by
      rw [Real.le_logb_iff_rpow_le hb hrpos, Real.rpow_neg_one]
    have hcond : abs (Real.logb 10 (abs ((refValue value mn mx : ℚ) : ℝ))) ≤ 1
        ↔ (1/10 ≤ abs (refValue value mn mx) ∧ abs (refValue value mn mx) ≤ 10) := by
      rw [abs_le, hge, hle, habs]
      rw [show (10 : ℝ)⁻¹ = ((1/10 : ℚ) : ℝ) by norm_num,
          show (10 : ℝ) = ((10 : ℚ) : ℝ) by norm_num]
      exact ⟨fun h => ⟨by exact_mod_cast h.1, by exact_mod_cast h.2⟩,
             fun h => ⟨by exact_mod_cast h.1, by exact_mod_cast h.2⟩⟩
    constructor
    · intro h1
      have hc := hcond.mp h1
      simp only [scalingFor]
      rw [if_neg hr, if_pos hc]
    · intro h1
      have hc : ¬(1/10 ≤ abs (refValue value mn mx) ∧ abs (refValue value mn mx) ≤ 10) := by
        intro hcc
        have := hcond.mpr hcc
        linarith
      have hsf : scalingFor value mn mx
          = (10 : ℚ) ^ Int.log 10 (abs (refValue value mn mx)) := by
        simp only [scalingFor]
        rw [if_neg hr, if_neg hc]
      rw [hsf]
      have hfl : ⌊Real.logb 10 (abs ((refValue value mn mx : ℚ) : ℝ))⌋
          = Int.log 10 (abs (refValue value mn mx)) := by
        rw [habs, show (10 : ℝ) = ((10 : ℕ) : ℝ) by norm_num,
            Real.floor_logb_natCast (by positivity)]
        exact intLog_ratCast (abs (refValue value mn mx)) (abs_pos.mpr hr)
      rw [hfl]
      push_cast
      norm_num
  · have hbnd : gmaxMorph.scaled_bounds
        = ([some ((0 : ℚ) / scalingFor 50 (some 0) (some 100))],
           [some ((100 : ℚ) / scalingFor 50 (some 0) (some 100))]) := rfl
    rw [hbnd, scalingFor_gmax]
    norm_num

/-- C4 at the scenario's reference value 50: the hypothesis
`|log10 50| > 1` holds and the theorem yields the power-of-ten factor. -/
theorem scaling_formula_and_gmax_scenario_witness :
    (refValue 50 (some 0) (some 100) ≠ 0 ∧
     1 < abs (Real.logb 10 (abs ((refValue 50 (some 0) (some 100) : ℚ) : ℝ)))) ∧
    ((scalingFor 50 (some 0) (some 100) : ℚ) : ℝ)
      = (10 : ℝ) ^ ⌊Real.logb 10 (abs ((refValue 50 (some 0) (some 100) : ℚ) : ℝ))⌋ := by
  have h0 : refValue 50 (some 0) (some 100) ≠ 0 := by norm_num [refValue]
  have hgt : 1 < abs (Real.logb 10 (abs ((refValue 50 (some 0) (some 100) : ℚ) : ℝ))) := by
    have h50 : ((refValue 50 (some 0) (some 100) : ℚ) : ℝ) = 50 := by norm_num [refValue]
    rw [h50, show abs (50 : ℝ) = 50 by norm_num]
    have hlt : 1 < Real.logb 10 50 := by
      rw [Real.lt_logb_iff_rpow_lt (by norm_num : (1 : ℝ) < 10)
        (by norm_num : (0 : ℝ) < 50), Real.rpow_one]
      norm_num
    exact lt_of_lt_of_le hlt (le_abs_self _)
  exact ⟨⟨h0, hgt⟩,
    (scaling_formula_and_gmax_scenario.1 50 (some 0) (some 100) h0).2 hgt⟩

/-- C5 at the scenario set: names are distinct, so the conclusions hold. -/
theorem paramset_scaled_unscaled_dict_witness :
    (gmaxMorph.params.map Param.name).Nodup ∧
    (gmaxMorph.scaled.length = gmaxMorph.ajuparams.length ∧
     (∀ sv : List ℚ, sv.length = gmaxMorph.ajuparams.length →
       ∃ d, gmaxMorph.unscaled_dict sv = some d ∧
         d.length = gmaxMorph.params.length ∧
         ∀ p ∈ gmaxMorph.fixedparams, alookup d p.name = some p.value) ∧
     (∀ sv : List ℚ, sv.length ≠ gmaxMorph.ajuparams.length →
       gmaxMorph.unscaled_dict sv = none)) :=
  ⟨by decide, paramset_scaled_unscaled_dict gmaxMorph (by decide)⟩

/-- C6 (counterexample): `load(last=0)` does not yield "exactly the 0 most
recently created results" — `ans[-0:]` is the whole list, so all five
completed directories are yielded. -/
theorem load_last_zero_yields_all :
    (SimulationResults.load fsDemo (some 0)).length = 5 := by
  decide
